import Mathlib

/-!
Shallow embedding of the geometric annotation engine of `map-label-editor`
(`src/LabelEditor.tsx` and `src/components/BatchLabelModal.tsx`), together
with theorems settling the spec claims about it.

Conventions used throughout the embedding:
* JavaScript `number` coordinates are modelled as `ℚ`; pixel channel values
  and counters as `Nat`; pixel coordinates that may go negative as `Int`.
* The source compares square roots of nonnegative quantities
  (`Math.sqrt` in `perpendicularDistance` and in the edge-strength test).
  The embedding compares the squares instead, which preserves the order on
  nonnegative reals, so all comparisons agree with the source.
* JavaScript `%` on integers is truncated remainder (sign of the dividend);
  it is modelled by `Int.tmod`.
* `Math.round` on a nonnegative quotient rounds half away from zero; it is
  modelled by `jsRound`.
-/

namespace MapLabelEditor

/-- A point in image pixel space (`{x: number, y: number}` in `types.ts`). -/
structure Point where
  x : ℚ
  y : ℚ
deriving DecidableEq, Repr, Inhabited

/-- Squared point-to-line distance, from `perpendicularDistance` in
`magicWandSelect` (`LabelEditor.tsx`).  The source returns
`sqrt((point.x-closestX)^2 + (point.y-closestY)^2)` (and the Euclidean
point distance when the segment is degenerate, i.e. `mag === 0`, which
holds exactly when the squared magnitude is zero); the embedding returns
the square of that value. -/
def perpendicularDistanceSq (p lineStart lineEnd : Point) : ℚ :=
  let dx := lineEnd.x - lineStart.x
  let dy := lineEnd.y - lineStart.y
  let magSq := dx * dx + dy * dy
  if magSq = 0 then
    (p.x - lineStart.x) ^ 2 + (p.y - lineStart.y) ^ 2
  else
    let u := ((p.x - lineStart.x) * dx + (p.y - lineStart.y) * dy) / magSq
    let closestX := lineStart.x + u * dx
    let closestY := lineStart.y + u * dy
    (p.x - closestX) ^ 2 + (p.y - closestY) ^ 2

/-- The `maxDist` / `maxIdx` scan of `simplifyPolygon` in `LabelEditor.tsx`:
for `i` from `1` to `points.length - 2`, track the index of maximal
(squared) perpendicular distance from the chord `(first, last)`, with the
source's strict comparison `dist > maxDist` and initial value `(0, 0)`. -/
def findFarthest (points : List Point) : Nat × ℚ :=
  let s := points.headD default
  let e := points.getLastD default
  (List.range' 1 (points.length - 2)).foldl
    (fun acc i =>
      let d := perpendicularDistanceSq (points.getD i default) s e
      if acc.2 < d then (i, d) else acc)
    (0, 0)

theorem findFarthest_bounds (points : List Point)
    (h : 0 < (findFarthest points).2) :
    1 ≤ (findFarthest points).1 ∧ (findFarthest points).1 ≤ points.length - 2 := by
  unfold findFarthest at h ⊢
  set s := points.headD default
  set e := points.getLastD default
  -- invariant of the fold: the accumulator is `(0, 0)` or its index is in range
  suffices H : ∀ (l : List Nat) (acc : Nat × ℚ),
      (∀ j ∈ l, 1 ≤ j ∧ j ≤ points.length - 2) →
      (0 < acc.2 → 1 ≤ acc.1 ∧ acc.1 ≤ points.length - 2) →
      (0 < (l.foldl
        (fun acc i =>
          let d := perpendicularDistanceSq (points.getD i default) s e
          if acc.2 < d then (i, d) else acc) acc).2 →
        1 ≤ (l.foldl
        (fun acc i =>
          let d := perpendicularDistanceSq (points.getD i default) s e
          if acc.2 < d then (i, d) else acc) acc).1 ∧
        (l.foldl
        (fun acc i =>
          let d := perpendicularDistanceSq (points.getD i default) s e
          if acc.2 < d then (i, d) else acc) acc).1 ≤ points.length - 2) by
    refine H _ _ ?_ ?_ h
    · intro j hj
      have := List.mem_range'.mp hj
      omega
    · intro h0
      exact absurd h0 (by norm_num)
  intro l
  induction l with
  | nil => intro acc _ hacc h0; exact hacc h0
  | cons j t ih =>
    intro acc hmem hacc
    simp only [List.foldl_cons]
    apply ih
    · intro k hk; exact hmem k (List.mem_cons_of_mem _ hk)
    · intro hpos
      by_cases hlt : acc.2 < perpendicularDistanceSq (points.getD j default) s e
      · simp only [hlt, if_pos] at hpos ⊢
        exact hmem j (List.mem_cons_self _ _)
      · simp only [hlt, if_neg, if_false] at hpos ⊢
        exact hacc hpos

/-- Recursive Douglas-Peucker simplification, from `simplifyPolygon` in
`magicWandSelect` (`LabelEditor.tsx`).  Base case: at most 2 points are
returned as-is.  Otherwise the farthest interior point from the chord
`(first, last)` is found; if its distance exceeds `epsilon` the call
recurses on `points.slice(0, maxIdx + 1)` and `points.slice(maxIdx)`,
splicing the results with `left.slice(0, -1) ++ right`; otherwise the whole
span collapses to `[first, last]`.  The source compares
`maxDist > epsilon` on square roots; the embedding compares the squares
(`eps * eps < maxDistSq`), which agrees with the source for the
nonnegative `epsilon` values every caller passes. -/
def simplifyPolygon (points : List Point) (eps : ℚ) : List Point :=
  if points.length ≤ 2 then points
  else
    let fm := findFarthest points
    if h2 : eps * eps < fm.2 then
      let left := simplifyPolygon (points.take (fm.1 + 1)) eps
      let right := simplifyPolygon (points.drop fm.1) eps
      left.dropLast ++ right
    else
      [points.headD default, points.getLastD default]
termination_by points.length
decreasing_by
  · have hpos : 0 < (findFarthest points).2 :=
      lt_of_le_of_lt (mul_self_nonneg eps) h2
    have := findFarthest_bounds points hpos
    simp only [List.length_take]
    omega
  · have hpos : 0 < (findFarthest points).2 :=
      lt_of_le_of_lt (mul_self_nonneg eps) h2
    have := findFarthest_bounds points hpos
    simp only [List.length_drop]
    omega

/-- One RGBA pixel; channel values are bytes in the source
(`Uint8ClampedArray`), modelled as `Nat`. -/
structure RGBA where
  r : Nat
  g : Nat
  b : Nat
  a : Nat
deriving DecidableEq, Repr, Inhabited

/-- A decoded image raster: dimensions plus a pixel lookup, the shallow
embedding of the canvas `ImageData` buffer. -/
structure Raster where
  width : Nat
  height : Nat
  pix : Int → Int → RGBA

/-- `Math.min` over a nonempty list of numbers (the spread-call
`Math.min(...points.map(...))`); the `[]` value is never used by callers. -/
def qMin : List ℚ → ℚ
  | [] => 0
  | x :: xs => xs.foldl min x

/-- `Math.max` over a nonempty list of numbers. -/
def qMax : List ℚ → ℚ
  | [] => 0
  | x :: xs => xs.foldl max x

/-- A bounding box clamped to the image, in integer pixel coordinates. -/
structure Box where
  minX : Int
  maxX : Int
  minY : Int
  maxY : Int
deriving DecidableEq, Repr

/-- The clamped bounding box computed at the top of `sampleColorFromRegion`
(and identically in `extractAreaFromRegion`):
`minX = max(0, floor(min x))`, `maxX = min(imageWidth, ceil(max x))`, and
likewise for `y`. -/
def sampleBox (img : Raster) (points : List Point) : Box where
  minX := max 0 ⌊qMin (points.map (·.x))⌋
  maxX := min (img.width : Int) ⌈qMax (points.map (·.x))⌉
  minY := max 0 ⌊qMin (points.map (·.y))⌋
  maxY := min (img.height : Int) ⌈qMax (points.map (·.y))⌉

/-- The pixels `sampleColorFromRegion` reads: the box buffer returned by
`getImageData(minX, minY, width, height)` walked at byte stride 16
(`for (i = 0; i < pixels.length; i += 16)`), i.e. every 4th pixel of the
box in row-major order. -/
def sampledPixels (img : Raster) (points : List Point) : List RGBA :=
  let box := sampleBox img points
  let w := (box.maxX - box.minX).toNat
  let h := (box.maxY - box.minY).toNat
  ((List.range (w * h)).filter (fun p => p % 4 == 0)).map
    (fun p => img.pix (box.minX + (p % w : Nat)) (box.minY + (p / w : Nat)))

/-- The sampled pixels that pass the `alpha > 128` test (strict: alpha
exactly 128 is excluded). -/
def qualifyingPixels (img : Raster) (points : List Point) : List RGBA :=
  (sampledPixels img points).filter (fun c => 128 < c.a)

/-- `Math.round(num / den)` for natural `num` and positive natural `den`:
round half away from zero. -/
def jsRound (num den : Nat) : Nat :=
  (2 * num + den) / (2 * den)

/-- The digits of `n.toString(16)` (lowercase base-16, no leading zeros,
`"0"` for zero). -/
def hexDigits (n : Nat) : List Char :=
  Nat.toDigits 16 n

/-- `String.padStart(2, '0')` on a digit list. -/
def padStart2 (l : List Char) : List Char :=
  List.replicate (2 - l.length) '0' ++ l

/-- The output format of `sampleColorFromRegion`:
`` `#${toHex(r)}${toHex(g)}${toHex(b)}` ``. -/
def colorHex (r g b : Nat) : String :=
  String.mk ('#' :: (padStart2 (hexDigits r) ++ padStart2 (hexDigits g) ++
    padStart2 (hexDigits b)))

/-- The pixel-computation core of `sampleColorFromRegion`
(`LabelEditor.tsx`), taking a decoded raster (the spec's §4.2 framing; the
canvas/image-loading failure paths of the wrapper are outside the
embedding): clamp the polygon's bounding box to the image; fail if it has
non-positive width or height; average the R/G/B channels of every 4th
pixel with alpha above 128; fail if no pixel qualifies; otherwise format
the rounded averages as a hex color string. -/
def sampleColorFromRegion (img : Raster) (points : List Point) : Option String :=
  let box := sampleBox img points
  if box.maxX - box.minX ≤ 0 ∨ box.maxY - box.minY ≤ 0 then none
  else
    let q := qualifyingPixels img points
    if q.length = 0 then none
    else
      let r := jsRound (q.map (·.r)).sum q.length
      let g := jsRound (q.map (·.g)).sum q.length
      let b := jsRound (q.map (·.b)).sum q.length
      some (colorHex r g b)

/-! ### Numeric-Text Extractor, tier 4 (bare whole numbers)

`extractAreaFromRegion` (`LabelEditor.tsx`) tries unit-tagged numbers,
decimal numbers and misread-decimal patterns first; each of those tiers
returns as soon as it pushed any candidate (tier 1 candidates all carry
`hasUnit`, tier 2/3 candidates all carry `hasDecimal`, and the two early
returns fire whenever such a candidate exists).  Hence the whole-number
tier below always starts from an empty candidate list. -/

/-- ASCII digit test (`\d` in a JavaScript regex). -/
def isDigitChar (c : Char) : Bool :=
  '0' ≤ c ∧ c ≤ '9'

/-- JavaScript regex word characters (`\w`, i.e. ASCII letters, digits and
underscore), which determine `\b` word boundaries. -/
def isWordChar (c : Char) : Bool :=
  ('0' ≤ c ∧ c ≤ '9') ∨ ('a' ≤ c ∧ c ≤ 'z') ∨ ('A' ≤ c ∧ c ≤ 'Z') ∨ c = '_'

/-- Single left-to-right pass collecting maximal word-character runs:
`cur` holds the reversed run in progress. -/
def wordRunsGo : List Char → List Char → List (List Char)
  | cur, [] => if cur.isEmpty then [] else [cur.reverse]
  | cur, c :: rest =>
    if isWordChar c then wordRunsGo (c :: cur) rest
    else if cur.isEmpty then wordRunsGo [] rest
    else cur.reverse :: wordRunsGo [] rest

/-- Maximal runs of word characters in a text, in order.  A match of
`/\b(\d{2,5})\b/` must cover a whole such run (both of its ends must sit
at word boundaries and `\d` only matches word characters), so the matches
of that pattern are exactly the all-digit runs of length 2 to 5. -/
def wordRuns (text : List Char) : List (List Char) :=
  wordRunsGo [] text

/-- The matches of the tier-4 pattern `\b(\d{2,5})\b` in order. -/
def tier4Matches (text : List Char) : List (List Char) :=
  (wordRuns text).filter (fun r => r.all isDigitChar && 2 ≤ r.length && r.length ≤ 5)

/-- `parseInt` on a digit run. -/
def parseNatDigits (l : List Char) : Nat :=
  l.foldl (fun acc c => 10 * acc + (c.toNat - '0'.toNat)) 0

/-- The per-match body of the tier-4 loop in `extractAreaFromRegion`:
skip a value within ±2 of `expectedHouseNumber`; if the matched text ends
in `'0'`, the value is in `[1000, 100000]` and a tenth of it is in
`[100, 1000]`, replace the value by that tenth (the source divides the
number — exact here, as it ends in the digit 0); finally accept the value
iff it lies in `[100, 10000]`. -/
def tier4Process (expected : Option Int) (run : List Char) : Option Nat :=
  let value := parseNatDigits run
  let skip : Bool := match expected with
    | some e => ((value : Int) - e).natAbs ≤ 2
    | none => false
  if skip then none
  else
    let value' :=
      if run.getLast? = some '0' ∧ 1000 ≤ value ∧ value ≤ 100000 ∧
          100 ≤ value / 10 ∧ value / 10 ≤ 1000 then
        value / 10
      else value
    if 100 ≤ value' ∧ value' ≤ 10000 then some value' else none

/-- The tier-4 candidate values (`foundNumbers`, which is empty when this
tier is reached), in match order. -/
def tier4Candidates (text : List Char) (expected : Option Int) : List Nat :=
  (tier4Matches text).filterMap (tier4Process expected)

/-- The tier-4 result: the source sorts the candidates by value descending
and returns the first element, i.e. the largest candidate; `none` when no
candidate survived. -/
def extractAreaTier4 (text : List Char) (expected : Option Int) : Option Nat :=
  ((tier4Candidates text expected).mergeSort (fun a b => b ≤ a)).head?

/-! ### Region Segmenter (magic wand), from `magicWandSelect` in
`LabelEditor.tsx` -/

/-- The flood-fill pixel cap (`const maxPixels = 500000`). -/
def maxPixels : Nat := 500000

/-- `Math.round` on a number: round half toward positive infinity,
i.e. `floor(q + 1/2)`. -/
def roundQ (q : ℚ) : Int :=
  ⌊q + 1 / 2⌋

/-- Sum of absolute per-channel differences, used both by the gradient and
by `colorMatch`. -/
def colorDiff (c1 c2 : RGBA) : Nat :=
  ((c1.r : Int) - c2.r).natAbs + ((c1.g : Int) - c2.g).natAbs +
    ((c1.b : Int) - c2.b).natAbs

/-- Squared edge strength at a pixel, from `getEdgeStrength`: border pixels
(`x <= 0 || x >= width-1 || y <= 0 || y >= height-1`) get the maximal
strength 255; interior pixels get `sqrt(gx^2 + gy^2)` for the central
差-difference gradients.  The embedding squares both sides of the
comparison with the (nonnegative) edge threshold. -/
def edgeStrengthSq (img : Raster) (x y : Int) : Nat :=
  if x ≤ 0 ∨ (img.width : Int) - 1 ≤ x ∨ y ≤ 0 ∨ (img.height : Int) - 1 ≤ y then
    255 * 255
  else
    let gx := colorDiff (img.pix (x + 1) y) (img.pix (x - 1) y)
    let gy := colorDiff (img.pix x (y + 1)) (img.pix x (y - 1))
    gx * gx + gy * gy

/-- The mutable state of the flood-fill loop: the `visited` and `region`
sets (as lists; every pixel appended to `region` was unvisited at that
moment, so the list never repeats an element and its length equals the
JavaScript `Set` size), the BFS `queue`, and `pixelCount`. -/
structure FloodState where
  visited : List (Int × Int)
  region : List (Int × Int)
  queue : List (Int × Int)
  pixelCount : Nat
deriving DecidableEq, Repr

/-- The `while (queue.length > 0 && pixelCount < maxPixels)` loop of
`magicWandSelect`: dequeue a pixel; skip it if already visited; mark it
visited; skip it if out of bounds, on a strong edge
(`edgeStrength > edgeThreshold`, compared on squares here), or not
color-matching the seed (`diff <= tolerance`); otherwise add it to the
region, bump `pixelCount` and enqueue its 4 neighbors. -/
def floodLoop (img : Raster) (tol edgeT : Nat) (seed : RGBA) (st : FloodState) :
    FloodState :=
  match hq : st.queue with
  | [] => st
  | p :: rest =>
    if hc : st.pixelCount < maxPixels then
      if st.visited.contains p then
        floodLoop img tol edgeT seed { st with queue := rest }
      else
        let st1 : FloodState := { st with visited := p :: st.visited, queue := rest }
        if p.1 < 0 ∨ (img.width : Int) ≤ p.1 ∨ p.2 < 0 ∨ (img.height : Int) ≤ p.2 then
          floodLoop img tol edgeT seed st1
        else if edgeT * edgeT < edgeStrengthSq img p.1 p.2 then
          floodLoop img tol edgeT seed st1
        else if ¬ colorDiff (img.pix p.1 p.2) seed ≤ tol then
          floodLoop img tol edgeT seed st1
        else
          floodLoop img tol edgeT seed
            { visited := p :: st.visited,
              region := st.region ++ [p],
              queue := rest ++ [(p.1 + 1, p.2), (p.1 - 1, p.2), (p.1, p.2 + 1), (p.1, p.2 - 1)],
              pixelCount := st.pixelCount + 1 }
    else st
termination_by st.queue.length + 5 * (maxPixels - st.pixelCount)
decreasing_by
  all_goals simp only [hq, List.length_cons, List.length_append,
    List.length_nil, maxPixels] at *
  all_goals omega

/-- Flood fill from a rounded, in-bounds seed: empty visited/region sets, a
queue holding the seed, seed color read at the seed pixel. -/
def floodFill (img : Raster) (tol edgeT : Nat) (sx sy : Int) : FloodState :=
  floodLoop img tol edgeT (img.pix sx sy) ⟨[], [], [(sx, sy)], 0⟩

/-- Fuel-indexed version of `floodLoop`, used to evaluate the loop on
concrete inputs (`floodLoopFuel_eq` shows it agrees with `floodLoop`
whenever the fuel exceeds the loop's termination measure, which every
concrete use below guarantees). -/
def floodLoopFuel (img : Raster) (tol edgeT : Nat) (seed : RGBA) :
    Nat → FloodState → FloodState
  | 0, st => st
  | fuel + 1, st =>
    match st.queue with
    | [] => st
    | p :: rest =>
      if st.pixelCount < maxPixels then
        if st.visited.contains p then
          floodLoopFuel img tol edgeT seed fuel { st with queue := rest }
        else
          let st1 : FloodState := { st with visited := p :: st.visited, queue := rest }
          if p.1 < 0 ∨ (img.width : Int) ≤ p.1 ∨ p.2 < 0 ∨ (img.height : Int) ≤ p.2 then
            floodLoopFuel img tol edgeT seed fuel st1
          else if edgeT * edgeT < edgeStrengthSq img p.1 p.2 then
            floodLoopFuel img tol edgeT seed fuel st1
          else if ¬ colorDiff (img.pix p.1 p.2) seed ≤ tol then
            floodLoopFuel img tol edgeT seed fuel st1
          else
            floodLoopFuel img tol edgeT seed fuel
              { visited := p :: st.visited,
                region := st.region ++ [p],
                queue := rest ++ [(p.1 + 1, p.2), (p.1 - 1, p.2), (p.1, p.2 + 1), (p.1, p.2 - 1)],
                pixelCount := st.pixelCount + 1 }
      else st

theorem floodLoopFuel_eq (img : Raster) (tol edgeT : Nat) (seed : RGBA)
    (fuel : Nat) (st : FloodState)
    (h : st.queue.length + 5 * (maxPixels - st.pixelCount) < fuel) :
    floodLoopFuel img tol edgeT seed fuel st = floodLoop img tol edgeT seed st := by
  induction fuel generalizing st with
  | zero => omega
  | succ fuel ih =>
    rw [floodLoop]
    match hq : st.queue with
    | [] => simp [floodLoopFuel, hq]
    | p :: rest =>
      simp only [floodLoopFuel, hq]
      simp only [hq, List.length_cons] at h
      by_cases hc : st.pixelCount < maxPixels
      · simp only [hc, if_true, dif_pos]
        by_cases hv : st.visited.contains p
        · simp only [hv, if_true]
          apply ih
          simp only [List.length_cons]
          omega
        · simp only [hv, if_false, Bool.false_eq_true]
          by_cases hb : p.1 < 0 ∨ (img.width : Int) ≤ p.1 ∨ p.2 < 0 ∨ (img.height : Int) ≤ p.2
          · simp only [hb, if_true]
            apply ih
            simp
            omega
          · simp only [hb, if_false]
            by_cases he : edgeT * edgeT < edgeStrengthSq img p.1 p.2
            · simp only [he, if_true]
              apply ih
              simp
              omega
            · simp only [he, if_false]
              by_cases hcm : ¬ colorDiff (img.pix p.1 p.2) seed ≤ tol
              · simp only [hcm, if_true]
                apply ih
                simp
                omega
              · simp only [hcm, if_false]
                apply ih
                simp only [List.length_append, List.length_cons, List.length_nil]
                simp only [maxPixels] at *
                omega
      · simp [hc]

/-- `Math.min` over a nonempty list of integer pixel coordinates. -/
def iMin : List Int → Int
  | [] => 0
  | x :: xs => xs.foldl min x

/-- `Math.max` over a nonempty list of integer pixel coordinates. -/
def iMax : List Int → Int
  | [] => 0
  | x :: xs => xs.foldl max x

/-- Boundary pixels of the region: those with at least one 4-neighbor not
in the region. -/
def regionBoundary (region : List (Int × Int)) : List (Int × Int) :=
  region.filter (fun p =>
    !region.contains (p.1 - 1, p.2) || !region.contains (p.1 + 1, p.2) ||
    !region.contains (p.1, p.2 - 1) || !region.contains (p.1, p.2 + 1))

/-- The quadrant class of `atan2(dy, dx)`: class 0 is the open lower half
plane (angles in `(-π, 0)`), class 1 the nonnegative x-axis (angle `0`,
including the origin, where `atan2` returns `0`), class 2 the open upper
half plane (angles in `(0, π)`), class 3 the negative x-axis (angle `π`). -/
def atanClass (dx dy : ℚ) : Nat :=
  if dy < 0 then 0
  else if dy = 0 ∧ 0 ≤ dx then 1
  else if 0 < dy then 2
  else 3

/-- The angular order used to sort boundary points around the centroid
(`atan2(a.y-cy, a.x-cx) - atan2(b.y-cy, b.x-cx)` as a sort comparator).
Within one open half plane both angles lie in an interval of length `π`,
where `atan2` comparison is exactly the sign of the cross product; on the
axis classes all angles are equal.  This decides `atan2` order with exact
rational arithmetic. -/
def angleLe (c a b : Point) : Bool :=
  let ax := a.x - c.x
  let ay := a.y - c.y
  let bx := b.x - c.x
  let bY := b.y - c.y
  let ca := atanClass ax ay
  let cb := atanClass bx bY
  if ca ≠ cb then decide (ca < cb)
  else if ca = 0 ∨ ca = 2 then decide (0 ≤ ax * bY - ay * bx)
  else true

/-- The fixed-stride downsampling applied to the angularly sorted boundary
before Douglas-Peucker:
`targetPoints = min(n, 50)`, `step = max(1, floor(n / targetPoints))`, and
the loop `for (i = 0; i < n; i += step)` keeps the points at indices that
are multiples of `step`. -/
def downsampleBoundary (boundary : List Point) : List Point :=
  let n := boundary.length
  let targetPoints := min n 50
  let step := max 1 (n / targetPoints)
  (List.range n).filterMap (fun i => if i % step = 0 then boundary[i]? else none)

/-- The polygon-building tail of `magicWandSelect`, reached when the region
has at least 100 pixels: extract the boundary; if it has fewer than 4
points return the region's bounding-box rectangle; otherwise sort the
boundary by angle around the centroid, downsample, simplify with
`epsilon = 0.02 * max(width, height)` of the region's bounding box, and
fall back to the bounding-box rectangle when fewer than 4 points remain. -/
def magicWandPolygon (st : FloodState) : List Point :=
  let region := st.region
  let minX := iMin (region.map (·.1))
  let maxX := iMax (region.map (·.1))
  let minY := iMin (region.map (·.2))
  let maxY := iMax (region.map (·.2))
  let bboxRect : List Point :=
    [⟨minX, minY⟩, ⟨maxX, minY⟩, ⟨maxX, maxY⟩, ⟨minX, maxY⟩]
  let boundary := regionBoundary region
  if boundary.length < 4 then bboxRect
  else
    let centroidX : ℚ := (region.map (fun p => (p.1 : ℚ))).sum / region.length
    let centroidY : ℚ := (region.map (fun p => (p.2 : ℚ))).sum / region.length
    let sorted := (boundary.map (fun p => Point.mk p.1 p.2)).mergeSort
      (angleLe ⟨centroidX, centroidY⟩)
    let simplified := downsampleBoundary sorted
    let regionSize : ℚ := ((max (maxX - minX) (maxY - minY) : Int) : ℚ)
    let eps := regionSize * (2 / 100)
    let finalPolygon := simplifyPolygon simplified eps
    if finalPolygon.length < 4 then bboxRect else finalPolygon

/-- `magicWandSelect` on a decoded raster: round the click point, fail if it
is out of bounds, flood fill, fail if the region holds fewer than 100
pixels (`'Region too small, try adjusting tolerance'`), otherwise build the
polygon. -/
def magicWandSelect (img : Raster) (clickPoint : Point) (tol edgeT : Nat) :
    Option (List Point) :=
  let startX := roundQ clickPoint.x
  let startY := roundQ clickPoint.y
  if startX < 0 ∨ (img.width : Int) ≤ startX ∨ startY < 0 ∨ (img.height : Int) ≤ startY then
    none
  else
    let st := floodFill img tol edgeT startX startY
    if st.region.length < 100 then none
    else some (magicWandPolygon st)

/-! ### Batch Grid Planner, from `handleCreateBatchLabels` in
`LabelEditor.tsx` and `BatchConfig` in `BatchLabelModal.tsx` -/

/-- The `NumberingOrder` union of `BatchLabelModal.tsx`. -/
inductive NumberingOrder
  | ltr
  | rtl
  | boustrophedon
  | evensOdds
  | oddsEvens
  | colLtr
  | colRtl
deriving DecidableEq, Repr

/-- The fields of `BatchConfig` the algorithms read.  `startHouseNumber`
and `houseNumberIncrement` are produced by `parseInt(...) || 1` in the
modal, hence integers.  The `type`/`color`/auto-detect fields ride along
for label construction. -/
structure BatchConfig where
  rows : Nat
  cols : Nat
  startBlockNumber : String
  startHouseNumber : Int
  houseNumberIncrement : Int
  useCustomSequence : Bool
  customSequence : Option (List Int)
  columnDividers : Option (List ℚ)
  rowDividers : Option (List ℚ)
  type : String
  color : String
  numberingOrder : NumberingOrder
deriving DecidableEq, Repr

/-- `const increment = houseNumberIncrement || 1`: zero (the only falsy
integer) falls back to 1. -/
def effectiveIncrement (c : BatchConfig) : Int :=
  if c.houseNumberIncrement = 0 then 1 else c.houseNumberIncrement

/-- The `sequenceIndex` switch of `getHouseNumber`: the cell's position in
the chosen numbering order (`evens-odds`/`odds-evens` use the row-major
index here; their special numbering happens later).  Faithful to the
source for the in-range `row < rows`, `col < cols` the planner iterates
(the subtractions cannot underflow there). -/
def sequenceIndex (c : BatchConfig) (row col : Nat) : Nat :=
  match c.numberingOrder with
  | .ltr => row * c.cols + col
  | .rtl => row * c.cols + (c.cols - 1 - col)
  | .boustrophedon =>
    if row % 2 = 0 then row * c.cols + col
    else row * c.cols + (c.cols - 1 - col)
  | .colLtr => col * c.rows + row
  | .colRtl => (c.cols - 1 - col) * c.rows + row
  | .evensOdds => row * c.cols + col
  | .oddsEvens => row * c.cols + col

/-- The increment-based numbering switch of `getHouseNumber` (the branch
taken when no custom sequence applies).  JavaScript `%` is truncated
remainder, modelled by `Int.tmod` — so for example
`(-3) % 2 === -1`, and the `=== 1` test for odd start values fails on
negative odd numbers exactly as in the source. -/
def regularHouseNumber (c : BatchConfig) (row col : Nat) (increment : Int) : Int :=
  match c.numberingOrder with
  | .ltr => c.startHouseNumber + ((row * c.cols + col : Nat) : Int) * increment
  | .rtl => c.startHouseNumber + ((row * c.cols + (c.cols - 1 - col) : Nat) : Int) * increment
  | .boustrophedon =>
    if row % 2 = 0 then
      c.startHouseNumber + ((row * c.cols + col : Nat) : Int) * increment
    else
      c.startHouseNumber + ((row * c.cols + (c.cols - 1 - col) : Nat) : Int) * increment
  | .evensOdds =>
    if c.rows = 2 then
      if row = 0 then
        let firstEven :=
          if Int.tmod c.startHouseNumber 2 = 0 then c.startHouseNumber
          else c.startHouseNumber + 1
        firstEven + (col : Int) * 2 * increment
      else
        let firstOdd :=
          if Int.tmod c.startHouseNumber 2 = 1 then c.startHouseNumber
          else c.startHouseNumber + 1
        firstOdd + (col : Int) * 2 * increment
    else
      c.startHouseNumber + ((row * c.cols + col : Nat) : Int) * increment
  | .oddsEvens =>
    if c.rows = 2 then
      if row = 0 then
        let firstOdd :=
          if Int.tmod c.startHouseNumber 2 = 1 then c.startHouseNumber
          else c.startHouseNumber + 1
        firstOdd + (col : Int) * 2 * increment
      else
        let firstEven :=
          if Int.tmod c.startHouseNumber 2 = 0 then c.startHouseNumber
          else c.startHouseNumber + 1
        firstEven + (col : Int) * 2 * increment
    else
      c.startHouseNumber + ((row * c.cols + col : Nat) : Int) * increment
  | .colLtr => c.startHouseNumber + ((col * c.rows + row : Nat) : Int) * increment
  | .colRtl => c.startHouseNumber + (((c.cols - 1 - col) * c.rows + row : Nat) : Int) * increment

/-- `getHouseNumber(row, col)` from `handleCreateBatchLabels`: when
`useCustomSequence && customSequence && customSequence.length > 0`, index
the custom sequence at `sequenceIndex % length` (always in bounds, so
`getD`'s fallback is never used); otherwise the increment-based switch. -/
def getHouseNumber (c : BatchConfig) (row col : Nat) : Int :=
  let increment := effectiveIncrement c
  match c.customSequence, c.useCustomSequence with
  | some cs, true =>
    if 0 < cs.length then cs.getD (sequenceIndex c row col % cs.length) 0
    else regularHouseNumber c row col increment
  | _, _ => regularHouseNumber c row col increment

/-- The house numbers of a whole batch in row-major cell order (the order
of the planner's nested `row`/`col` loops). -/
def batchHouseNumbers (c : BatchConfig) : List Int :=
  (List.range c.rows).flatMap
    (fun row => (List.range c.cols).map (fun col => getHouseNumber c row col))

/-- The smallest even integer that is at least `s` (the spec's description
of the first number of the even row). -/
def leastEvenGE (s : Int) : Int :=
  if s % 2 = 0 then s else s + 1

/-- The smallest odd integer that is at least `s` (the spec's description
of the first number of the odd row). -/
def leastOddGE (s : Int) : Int :=
  if s % 2 = 0 then s + 1 else s

/-- A cell rectangle of the batch grid (`getCellBounds`). -/
structure CellBounds where
  x : ℚ
  y : ℚ
  width : ℚ
  height : ℚ
deriving DecidableEq, Repr

/-- `getCellBounds(row, col)` from `handleCreateBatchLabels`: explicit
dividers when provided, otherwise `cols-1` (resp. `rows-1`) equally spaced
fractions `(i+1)/n`; boundary fractions `[0, ...dividers, 1]`; the cell
spans the `[col, col+1]` (resp. `[row, row+1]`) boundary pair, scaled onto
the selection rectangle `rStart`–`rEnd`.  Indexing is always in bounds for
the planner's loops, so `getD`'s fallback value is never used. -/
def getCellBounds (c : BatchConfig) (rStart rEnd : Point) (row col : Nat) :
    CellBounds :=
  let totalWidth := rEnd.x - rStart.x
  let totalHeight := rEnd.y - rStart.y
  let colDividers := match c.columnDividers with
    | some ds => ds
    | none => (List.range (c.cols - 1)).map (fun i => ((i + 1 : Nat) : ℚ) / (c.cols : ℚ))
  let rowDividers := match c.rowDividers with
    | some ds => ds
    | none => (List.range (c.rows - 1)).map (fun i => ((i + 1 : Nat) : ℚ) / (c.rows : ℚ))
  let colBoundaries := 0 :: (colDividers ++ [1])
  let rowBoundaries := 0 :: (rowDividers ++ [1])
  let leftFraction := colBoundaries.getD col 0
  let rightFraction := colBoundaries.getD (col + 1) 0
  let topFraction := rowBoundaries.getD row 0
  let bottomFraction := rowBoundaries.getD (row + 1) 0
  { x := rStart.x + leftFraction * totalWidth
    y := rStart.y + topFraction * totalHeight
    width := (rightFraction - leftFraction) * totalWidth
    height := (bottomFraction - topFraction) * totalHeight }

/-- The 4 corner points of a batch cell (`cellPoints` in the planner's
loop body). -/
def batchCellPoints (c : BatchConfig) (rStart rEnd : Point) (row col : Nat) :
    List Point :=
  let b := getCellBounds c rStart rEnd row col
  [⟨b.x, b.y⟩, ⟨b.x + b.width, b.y⟩, ⟨b.x + b.width, b.y + b.height⟩,
    ⟨b.x, b.y + b.height⟩]

/-! ### Labels and the single-creation flow, from `types.ts` and
`handleCreateLabel` in `LabelEditor.tsx` -/

/-- A `Label` (`types.ts`), with the optional fields the creation flows
set. -/
structure Label where
  id : String
  type : String
  points : List Point
  blockNumber : Option String
  houseNumber : Option String
  color : Option String
  area : Option ℚ
  createdAt : Option String
deriving DecidableEq, Repr

/-- `String.replace(/\s+/g, '_')`: every maximal whitespace run becomes a
single underscore. -/
def collapseWs : List Char → List Char
  | [] => []
  | c :: rest =>
    if c.isWhitespace then '_' :: collapseWs (rest.dropWhile Char.isWhitespace)
    else c :: collapseWs rest
termination_by l => l.length
decreasing_by
  · have hsub : List.Sublist (List.dropWhile Char.isWhitespace rest) rest :=
      List.dropWhile_sublist _
    have := hsub.length_le
    simp only [List.length_cons]
    omega
  · simp

/-- Sanitize a generated label id (`.replace(/\s+/g, '_')`). -/
def sanitizeId (s : String) : String :=
  String.mk (collapseWs s.toList)

/-- The label built by a batch cell, with
`points = [...cellPoints, cellPoints[0]]` (the closing copy of the first
corner).  `now` stands for `Date.now()`, `createdAt` for
`new Date().toISOString()`, and `labelColor`/`detectedArea` for the
results of the optional per-cell Pixel Sampler / OCR collaborators. -/
def mkBatchLabel (c : BatchConfig) (rStart rEnd : Point) (row col : Nat)
    (now : Nat) (createdAt : String) (labelColor : String)
    (detectedArea : Option ℚ) : Label :=
  let cellPoints := batchCellPoints c rStart rEnd row col
  let houseNum := getHouseNumber c row col
  { id := sanitizeId (c.type ++ "_" ++ c.startBlockNumber ++ "_" ++
      toString houseNum ++ "_" ++ toString now ++ "_" ++ toString row ++ "_" ++
      toString col)
    type := c.type
    points := cellPoints ++ [cellPoints.headD default]
    blockNumber := some c.startBlockNumber
    houseNumber := some (toString houseNum)
    color := some labelColor
    area := detectedArea
    createdAt := some createdAt }

/-- An `ImageData` entry (`types.ts`). -/
structure ImageData where
  name : String
  width : Nat
  height : Nat
  labels : List Label
  imageUri : Option String
deriving DecidableEq, Repr

/-- `LabelsData`: the string-keyed image map, as an insertion-ordered
association list. -/
structure LabelsData where
  images : List (String × ImageData)
deriving DecidableEq, Repr

/-- The argument of `handleCreateLabel` (from the new-label modal). -/
structure NewLabelData where
  type : String
  blockNumber : String
  houseNumber : String
  color : String
  area : Option ℚ
deriving DecidableEq, Repr

/-- The component state `handleCreateLabel` reads and writes. -/
structure EditorState where
  labelsData : LabelsData
  history : List LabelsData
  drawingPoints : List Point
  selectedImageKey : String
  mode : String
  selectedLabelId : Option String
deriving DecidableEq, Repr

/-- `saveHistory`: keep the last 19 snapshots (`prev.slice(-19)`) and
append a copy of the current `labelsData`. -/
def saveHistory (s : EditorState) : List LabelsData :=
  s.history.drop (s.history.length - 19) ++ [s.labelsData]

/-- Rewrite the image entry at `key` (the source's nested object spread;
the editor only calls it with a key present in the map). -/
def updateImage (d : LabelsData) (key : String) (f : ImageData → ImageData) :
    LabelsData :=
  ⟨d.images.map (fun kv => if kv.1 = key then (kv.1, f kv.2) else kv)⟩

/-- The label built by `handleCreateLabel`, with
`closedPoints = [...drawingPoints, drawingPoints[0]]`; empty
block/house-number strings become `undefined` (`|| undefined`). -/
def mkCreatedLabel (now : Nat) (createdAt : String) (drawingPoints : List Point)
    (ld : NewLabelData) : Label :=
  { id := sanitizeId (ld.type ++ "_" ++ ld.blockNumber ++ "_" ++ toString now)
    type := ld.type
    points := drawingPoints ++ [drawingPoints.headD default]
    blockNumber := if ld.blockNumber = "" then none else some ld.blockNumber
    houseNumber := if ld.houseNumber = "" then none else some ld.houseNumber
    color := some ld.color
    area := ld.area
    createdAt := some createdAt }

/-- `handleCreateLabel`: bail out with the state untouched when the current
drawing has fewer than 3 points; otherwise snapshot the history, append the
new closed-ring label to the selected image, clear the drawing, return to
view mode and select the new label. -/
def handleCreateLabel (now : Nat) (createdAt : String) (ld : NewLabelData)
    (s : EditorState) : EditorState :=
  if s.drawingPoints.length < 3 then s
  else
    let lbl := mkCreatedLabel now createdAt s.drawingPoints ld
    { labelsData := updateImage s.labelsData s.selectedImageKey
        (fun im => { im with labels := im.labels ++ [lbl] })
      history := saveHistory s
      drawingPoints := []
      selectedImageKey := s.selectedImageKey
      mode := "view"
      selectedLabelId := some lbl.id }

/-! ### Concrete instances used by the spec's worked examples -/

/-- The §8 boustrophedon example:
`rows=2, cols=3, startHouseNumber=1, increment=1`. -/
def boustCfg : BatchConfig :=
  { rows := 2, cols := 3, startBlockNumber := "G 01", startHouseNumber := 1,
    houseNumberIncrement := 1, useCustomSequence := false, customSequence := none,
    columnDividers := none, rowDividers := none, type := "residential",
    color := "#4A90D9", numberingOrder := .boustrophedon }

/-- The §8 evens-odds example (same grid, `numberingOrder='evens-odds'`). -/
def evensOddsCfg : BatchConfig :=
  { boustCfg with numberingOrder := .evensOdds }

/-- The §8 custom-sequence example: `customSequence=[3,5,6]` on the 2×3
grid with `numberingOrder='ltr'`. -/
def customSeqCfg : BatchConfig :=
  { boustCfg with
    numberingOrder := .ltr
    useCustomSequence := true
    customSequence := some [3, 5, 6] }

/-- An `evens-odds` configuration with a negative odd start value
(`parseInt` accepts a typed minus sign and the modal applies no sign
check), on which the JavaScript `% 2 === 1` oddness test fails. -/
def negStartCfg : BatchConfig :=
  { boustCfg with
    numberingOrder := .evensOdds
    cols := 1
    startHouseNumber := -3 }

/-! ### Theorems for the claims on batch numbering (C1–C3) -/

theorem getHouseNumber_eq_regular (c : BatchConfig) (row col : Nat)
    (hcust : c.useCustomSequence = false) (hinc : c.houseNumberIncrement ≠ 0) :
    getHouseNumber c row col = regularHouseNumber c row col c.houseNumberIncrement := by
  unfold getHouseNumber effectiveIncrement
  rcases hcs : c.customSequence with _ | cs <;> simp [hcust, hinc]

/-- C1: with `numberingOrder='boustrophedon'` and no custom sequence, even
rows number left-to-right (`startHouseNumber + (row*cols + col)*increment`)
and odd rows right-to-left
(`startHouseNumber + (row*cols + (cols-1-col))*increment`); in particular
the 2×3 grid starting at 1 with increment 1 numbers its cells
`[1, 2, 3, 6, 5, 4]` in row-major order. -/
theorem boustrophedon_numbering (c : BatchConfig) (row col : Nat)
    (hord : c.numberingOrder = .boustrophedon)
    (hcust : c.useCustomSequence = false)
    (hinc : c.houseNumberIncrement ≠ 0)
    (hcol : col < c.cols) :
    (row % 2 = 0 →
      getHouseNumber c row col =
        c.startHouseNumber + ((row : Int) * c.cols + col) * c.houseNumberIncrement) ∧
    (row % 2 = 1 →
      getHouseNumber c row col =
        c.startHouseNumber +
          ((row : Int) * c.cols + ((c.cols : Int) - 1 - col)) * c.houseNumberIncrement) ∧
    batchHouseNumbers boustCfg = [1, 2, 3, 6, 5, 4] := by
  rw [getHouseNumber_eq_regular c row col hcust hinc]
  refine ⟨?_, ?_, by decide⟩
  · intro hrow
    simp only [regularHouseNumber, hord, hrow, if_pos]
    push_cast
    ring
  · intro hrow
    have h2 : ¬ (row % 2 = 0) := by omega
    simp only [regularHouseNumber, hord, h2, if_neg, if_false]
    have hsub : ((c.cols - 1 - col : Nat) : Int) = (c.cols : Int) - 1 - col := by omega
    push_cast [hsub]
    ring

theorem boustrophedon_numbering_witness :
    getHouseNumber boustCfg 1 0 = 6 := by
  have h := (boustrophedon_numbering boustCfg 1 0 rfl rfl (by decide) (by decide)).2.1 rfl
  rw [h]
  decide

/-- The smallest even integer `≥ s` is characterized by `leastEvenGE`. -/
theorem leastEvenGE_spec (s : Int) :
    2 ∣ leastEvenGE s ∧ s ≤ leastEvenGE s ∧
      ∀ t : Int, 2 ∣ t → s ≤ t → leastEvenGE s ≤ t := by
  unfold leastEvenGE
  by_cases h : s % 2 = 0 <;> simp only [h, if_pos, if_neg, if_true, if_false] <;>
    refine ⟨by omega, by omega, fun t ht hst => by omega⟩

/-- The smallest odd integer `≥ s` is characterized by `leastOddGE`. -/
theorem leastOddGE_spec (s : Int) :
    ¬ 2 ∣ leastOddGE s ∧ s ≤ leastOddGE s ∧
      ∀ t : Int, ¬ 2 ∣ t → s ≤ t → leastOddGE s ≤ t := by
  unfold leastOddGE
  by_cases h : s % 2 = 0 <;> simp only [h, if_pos, if_neg, if_true, if_false] <;>
    refine ⟨by omega, by omega, fun t ht hst => by omega⟩

/-- C2 (counterexample): with `numberingOrder='evens-odds'`, `rows=2`,
`startHouseNumber=-3`, `increment=1`, the cell `(1,0)` gets `-2` — an even
number, equal to row 0's value — not the smallest odd value `≥ -3`, which
is `-3`.  JavaScript computes `-3 % 2 === -1`, so the source's `=== 1`
oddness test fails on negative odd start values and `firstOdd` becomes
`startHouseNumber + 1`. -/
theorem evens_odds_negative_start_counterexample :
    getHouseNumber negStartCfg 1 0 = -2 ∧ getHouseNumber negStartCfg 0 0 = -2 ∧
      leastOddGE (-3) = -3 ∧ getHouseNumber negStartCfg 1 0 ≠ leastOddGE (-3) := by
  decide

/-- C2 (amended: for `startHouseNumber ≥ 0`): with no custom sequence and
a 2-row grid, `evens-odds` gives row 0 the even series
`firstEven + col*2*increment` (with `firstEven` the smallest even value
`≥ startHouseNumber`) and row 1 the odd series from the smallest odd value
`≥ startHouseNumber`; `odds-evens` swaps the two rows; any other row count
falls back to the `ltr` formula; and the worked example
(`rows=2, cols=3, startHouseNumber=1`) gives row 0 `[2,4,6]` and row 1
`[1,3,5]`. -/
theorem evens_odds_numbering (c : BatchConfig) (row col : Nat)
    (hcust : c.useCustomSequence = false)
    (hinc : c.houseNumberIncrement ≠ 0)
    (hstart : 0 ≤ c.startHouseNumber) :
    (c.numberingOrder = .evensOdds → c.rows = 2 →
      getHouseNumber c 0 col =
        leastEvenGE c.startHouseNumber + (col : Int) * 2 * c.houseNumberIncrement ∧
      getHouseNumber c 1 col =
        leastOddGE c.startHouseNumber + (col : Int) * 2 * c.houseNumberIncrement) ∧
    (c.numberingOrder = .oddsEvens → c.rows = 2 →
      getHouseNumber c 0 col =
        leastOddGE c.startHouseNumber + (col : Int) * 2 * c.houseNumberIncrement ∧
      getHouseNumber c 1 col =
        leastEvenGE c.startHouseNumber + (col : Int) * 2 * c.houseNumberIncrement) ∧
    ((c.numberingOrder = .evensOdds ∨ c.numberingOrder = .oddsEvens) → c.rows ≠ 2 →
      getHouseNumber c row col =
        c.startHouseNumber + ((row : Int) * c.cols + col) * c.houseNumberIncrement) ∧
    batchHouseNumbers evensOddsCfg = [2, 4, 6, 1, 3, 5] := by
  have htm : Int.tmod c.startHouseNumber 2 = c.startHouseNumber % 2 :=
    Int.tmod_eq_emod hstart (by norm_num)
  have heven : (if Int.tmod c.startHouseNumber 2 = 0 then c.startHouseNumber
      else c.startHouseNumber + 1) = leastEvenGE c.startHouseNumber := by
    rw [htm]; rfl
  have hodd : (if Int.tmod c.startHouseNumber 2 = 1 then c.startHouseNumber
      else c.startHouseNumber + 1) = leastOddGE c.startHouseNumber := by
    rw [htm]
    unfold leastOddGE
    have := Int.emod_two_eq c.startHouseNumber
    rcases this with h | h <;> simp [h]
  refine ⟨?_, ?_, ?_, by decide⟩
  · intro hord hrows
    rw [getHouseNumber_eq_regular c 0 col hcust hinc,
      getHouseNumber_eq_regular c 1 col hcust hinc]
    simp only [regularHouseNumber, hord, hrows, if_pos, if_true, one_ne_zero,
      if_false, if_neg, Nat.zero_ne_one]
    rw [heven, hodd]
    exact ⟨rfl, rfl⟩
  · intro hord hrows
    rw [getHouseNumber_eq_regular c 0 col hcust hinc,
      getHouseNumber_eq_regular c 1 col hcust hinc]
    simp only [regularHouseNumber, hord, hrows, if_pos, if_true, one_ne_zero,
      if_false, if_neg, Nat.zero_ne_one]
    rw [heven, hodd]
    exact ⟨rfl, rfl⟩
  · intro hord hrows
    rcases hord with hord | hord <;>
      · rw [getHouseNumber_eq_regular c row col hcust hinc]
        simp only [regularHouseNumber, hord, hrows, if_false, if_neg]
        push_cast
        ring
theorem evens_odds_numbering_witness :
    getHouseNumber evensOddsCfg 1 2 = 5 := by
  have h := ((evens_odds_numbering evensOddsCfg 0 2 rfl (by decide) (by decide)).1
    rfl rfl).2
  rw [h]
  decide

/-- C3: when `useCustomSequence` is set and the sequence is nonempty, the
cell whose numbering-order index is `i` receives
`customSequence[i % customSequence.length]`, cycling past the end; in
particular `customSequence=[3,5,6]` on the 2×3 `ltr` grid yields
`[3, 5, 6, 3, 5, 6]`. -/
theorem custom_sequence_numbering (c : BatchConfig) (cs : List Int) (row col : Nat)
    (huse : c.useCustomSequence = true)
    (hcs : c.customSequence = some cs)
    (hne : cs ≠ []) :
    getHouseNumber c row col = cs.getD (sequenceIndex c row col % cs.length) 0 ∧
    batchHouseNumbers customSeqCfg = [3, 5, 6, 3, 5, 6] := by
  refine ⟨?_, by decide⟩
  unfold getHouseNumber
  rw [hcs, huse]
  have hpos : 0 < cs.length := List.length_pos.mpr hne
  simp [hpos]

theorem custom_sequence_numbering_witness :
    getHouseNumber customSeqCfg 1 1 = 5 := by
  have h := (custom_sequence_numbering customSeqCfg [3, 5, 6] 1 1 rfl rfl
    (by decide)).1
  rw [h]
  decide

/-! ### Theorems for label creation (C9, C10) -/

/-- Concrete 3-point drawing used to witness the creation claims. -/
def pts3 : List Point :=
  [⟨0, 0⟩, ⟨4, 0⟩, ⟨0, 4⟩]

/-- Concrete `handleCreateLabel` argument used by the witnesses. -/
def ld0 : NewLabelData :=
  { type := "residential", blockNumber := "", houseNumber := "7",
    color := "#4A90D9", area := none }

/-- A concrete editor state whose drawing holds only 2 points. -/
def shortDrawState : EditorState :=
  { labelsData := ⟨[("plan", ⟨"plan", 768, 458, [], none⟩)]⟩
    history := []
    drawingPoints := [⟨0, 0⟩, ⟨4, 0⟩]
    selectedImageKey := "plan"
    mode := "draw"
    selectedLabelId := none }

/-- C9: both creation paths append a closing copy of the first point: a
single label created from an `n`-point drawing (`n ≥ 3`) stores `n+1`
points with `points[0] = points[last]`, and every batch cell label stores
its 4 corners plus the closing copy (5 points, first = last). -/
theorem created_label_closed_ring (now : Nat) (createdAt : String)
    (pts : List Point) (ld : NewLabelData) (c : BatchConfig)
    (rStart rEnd : Point) (row col : Nat) (labelColor : String)
    (area : Option ℚ) (h : 3 ≤ pts.length) :
    ((mkCreatedLabel now createdAt pts ld).points.length = pts.length + 1 ∧
      (mkCreatedLabel now createdAt pts ld).points.head? =
        (mkCreatedLabel now createdAt pts ld).points.getLast?) ∧
    ((mkBatchLabel c rStart rEnd row col now createdAt labelColor area).points.length = 5 ∧
      (mkBatchLabel c rStart rEnd row col now createdAt labelColor area).points.head? =
        (mkBatchLabel c rStart rEnd row col now createdAt labelColor area).points.getLast?) := by
  constructor
  · rcases pts with _ | ⟨a, t⟩
    · simp at h
    · constructor
      · simp [mkCreatedLabel]
      · have hp : (mkCreatedLabel now createdAt (a :: t) ld).points =
            (a :: t) ++ [a] := by
          simp [mkCreatedLabel]
        rw [hp, List.getLast?_concat]
        simp
  · constructor
    · simp [mkBatchLabel, batchCellPoints]
    · simp [mkBatchLabel, batchCellPoints, List.getLast?_concat]

theorem created_label_closed_ring_witness :
    (mkCreatedLabel 0 "t" pts3 ld0).points.length = 4 ∧
      (mkCreatedLabel 0 "t" pts3 ld0).points.head? =
        (mkCreatedLabel 0 "t" pts3 ld0).points.getLast? := by
  have h := (created_label_closed_ring 0 "t" pts3 ld0 boustCfg ⟨0, 0⟩ ⟨10, 10⟩
    0 0 "#4A90D9" none (by decide)).1
  refine ⟨?_, h.2⟩
  rw [h.1]
  rfl

/-- C10: `handleCreateLabel` invoked while the drawing holds fewer than 3
points returns with the state untouched — in particular no label is added
to any image and no history snapshot is taken. -/
theorem create_label_short_drawing_noop (now : Nat) (createdAt : String)
    (ld : NewLabelData) (s : EditorState) (h : s.drawingPoints.length < 3) :
    handleCreateLabel now createdAt ld s = s := by
  unfold handleCreateLabel
  simp [h]

theorem create_label_short_drawing_noop_witness :
    shortDrawState.drawingPoints.length < 3 ∧
      handleCreateLabel 0 "t" ld0 shortDrawState = shortDrawState :=
  ⟨by decide, create_label_short_drawing_noop 0 "t" ld0 shortDrawState (by decide)⟩

/-! ### Theorems for the boundary downsampling (C6) -/

/-- A 51-point boundary (any points will do; only the length matters to the
striding). -/
def boundary51 : List Point :=
  (List.range 51).map (fun i => ⟨(i : ℚ), 0⟩)

theorem downsample_length_aux (l : List Point) (step : Nat) (L : List Nat)
    (hL : ∀ i ∈ L, i < l.length) :
    (L.filterMap (fun i => if i % step = 0 then l[i]? else none)).length =
      (L.filter (fun i => i % step = 0)).length := by
  induction L with
  | nil => simp
  | cons j t ih =>
    have hj : j < l.length := hL j (List.mem_cons_self _ _)
    have ht : ∀ i ∈ t, i < l.length := fun i hi => hL i (List.mem_cons_of_mem _ hi)
    by_cases hc : j % step = 0
    · rw [List.filterMap_cons, List.filter_cons]
      simp [hc, List.getElem?_eq_getElem hj, ih ht]
    · rw [List.filterMap_cons, List.filter_cons]
      simp [hc, ih ht]

theorem downsample_length_eq (l : List Point) :
    (downsampleBoundary l).length =
      ((List.range l.length).filter
        (fun i => i % max 1 (l.length / min l.length 50) = 0)).length := by
  unfold downsampleBoundary
  exact downsample_length_aux l _ _ (fun i hi => List.mem_range.mp hi)

theorem count_multiples (d n : Nat) :
    ((List.range n).filter (fun i => i % d = 0)).length =
      if n = 0 then 0 else (n - 1) / d + 1 := by
  induction n with
  | zero => simp
  | succ n ih =>
    rw [List.range_succ, List.filter_append, List.length_append, ih]
    rcases Nat.eq_zero_or_pos n with h0 | hpos
    · subst h0
      simp
    · have hn1 : n ≠ 0 := by omega
      have hsd := Nat.succ_div (n - 1) d
      have hnode : n - 1 + 1 = n := by omega
      rw [hnode] at hsd
      by_cases hc : n % d = 0
      · have hdvd : d ∣ n := Nat.dvd_of_mod_eq_zero hc
        rw [List.filter_cons_of_pos (by simp [hc])]
        simp only [hn1, if_false, Nat.succ_ne_zero, List.length_cons,
          List.length_nil, Nat.succ_sub_one]
        rw [hsd]
        simp [hdvd]
      · have hndvd : ¬ d ∣ n := fun hd => hc (Nat.mod_eq_zero_of_dvd hd)
        rw [List.filter_cons_of_neg (by simp [hc])]
        simp only [hn1, if_false, Nat.succ_ne_zero, Nat.succ_sub_one]
        rw [hsd]
        simp [hndvd]

/-- C6 (counterexample): a 51-point boundary survives the "downsample to at
most 50" step whole: `targetPoints = min(51, 50) = 50`,
`step = max(1, floor(51/50)) = 1`, so all 51 points are kept and handed to
Douglas-Peucker. -/
theorem downsample_51_counterexample :
    4 ≤ boundary51.length ∧ (downsampleBoundary boundary51).length = 51 ∧
      ¬ (downsampleBoundary boundary51).length ≤ 50 := by
  refine ⟨by decide, ?_, ?_⟩ <;> rw [downsample_length_eq]
  · rfl
  · decide

/-- C6 (amended): the striding only guarantees at most 99 intermediate
points (for boundaries of 51 to 99 points the stride is 1 and every point
is kept; the bound 50 of the claim holds only for boundaries of at most 50
points or of at least 100); Douglas-Peucker is then applied with
`epsilon = 0.02 * max(boundingBoxWidth, boundingBoxHeight)` as stated
(`magicWandPolygon`). -/
theorem downsample_le_ninetynine (l : List Point) (h : 1 ≤ l.length) :
    (downsampleBoundary l).length ≤ 99 := by
  rw [downsample_length_eq]
  by_cases hn : l.length ≤ 99
  · calc ((List.range l.length).filter _).length
        ≤ (List.range l.length).length := List.length_filter_le _ _
      _ = l.length := List.length_range _
      _ ≤ 99 := hn
  · have h100 : 100 ≤ l.length := by omega
    have hmin : min l.length 50 = 50 := by omega
    have hstep : max 1 (l.length / min l.length 50) = l.length / 50 := by
      rw [hmin]
      omega
    simp only [hstep, count_multiples]
    have hne : ¬ l.length = 0 := by omega
    simp only [hne, if_false]
    have hs2 : 2 ≤ l.length / 50 := by omega
    have hlt : (l.length - 1) / (l.length / 50) < 99 := by
      rw [Nat.div_lt_iff_lt_mul (by omega)]
      omega
    omega

theorem downsample_le_ninetynine_witness :
    1 ≤ boundary51.length ∧ (downsampleBoundary boundary51).length ≤ 99 :=
  ⟨by decide, downsample_le_ninetynine boundary51 (by decide)⟩

/-! ### Theorems for Douglas-Peucker on the rectangle (C8) -/

/-- The §8 round-trip rectangle `[(0,0),(10,0),(10,5),(0,5)]`. -/
def rectExample : List Point :=
  [⟨0, 0⟩, ⟨10, 0⟩, ⟨10, 5⟩, ⟨0, 5⟩]

theorem simplifyPolygon_short (l : List Point) (eps : ℚ) (h : l.length ≤ 2) :
    simplifyPolygon l eps = l := by
  rw [simplifyPolygon]
  simp [h]

theorem simplifyPolygon_step (points : List Point) (eps : ℚ)
    (h2 : ¬ points.length ≤ 2)
    (hlt : eps * eps < (findFarthest points).2) :
    simplifyPolygon points eps =
      (simplifyPolygon (points.take ((findFarthest points).1 + 1)) eps).dropLast ++
        simplifyPolygon (points.drop (findFarthest points).1) eps := by
  rw [simplifyPolygon]
  simp only [if_neg h2, dif_pos hlt]

theorem findFarthest_rectExample : findFarthest rectExample = (1, 100) := by
  unfold findFarthest rectExample
  norm_num [perpendicularDistanceSq, List.range']

theorem findFarthest_rectTail :
    findFarthest [(⟨10, 0⟩ : Point), ⟨10, 5⟩, ⟨0, 5⟩] = (1, 20) := by
  unfold findFarthest
  norm_num [perpendicularDistanceSq, List.range']

/-- C8: Douglas-Peucker leaves the rectangle `[(0,0),(10,0),(10,5),(0,5)]`
unchanged for every `0 ≤ epsilon < 1`: the farthest-point split at `(10,0)`
(distance 10 from the chord `(0,0)`–`(0,5)`) and then at `(10,5)` (distance
`sqrt 20` from `(10,0)`–`(0,5)`) keeps all four corners. -/
theorem rectangle_simplify_identity (eps : ℚ) (h0 : 0 ≤ eps) (h1 : eps < 1) :
    simplifyPolygon rectExample eps = rectExample := by
  have hsq : eps * eps < 1 := by nlinarith
  have hstep1 := simplifyPolygon_step rectExample eps (by norm_num [rectExample])
    (by rw [findFarthest_rectExample]; exact lt_trans hsq (by norm_num))
  rw [findFarthest_rectExample] at hstep1
  have htake : rectExample.take 2 = [⟨0, 0⟩, ⟨10, 0⟩] := rfl
  have hdrop : rectExample.drop 1 = [⟨10, 0⟩, ⟨10, 5⟩, ⟨0, 5⟩] := rfl
  rw [hstep1]
  simp only [htake, hdrop]
  rw [simplifyPolygon_short _ _ (by norm_num)]
  have hstep2 := simplifyPolygon_step [(⟨10, 0⟩ : Point), ⟨10, 5⟩, ⟨0, 5⟩] eps
    (by norm_num)
    (by rw [findFarthest_rectTail]; exact lt_trans hsq (by norm_num))
  rw [findFarthest_rectTail] at hstep2
  rw [hstep2]
  rw [show ([(⟨10, 0⟩ : Point), ⟨10, 5⟩, ⟨0, 5⟩].take 2) = [⟨10, 0⟩, ⟨10, 5⟩] from rfl,
    show ([(⟨10, 0⟩ : Point), ⟨10, 5⟩, ⟨0, 5⟩].drop 1) = [⟨10, 5⟩, ⟨0, 5⟩] from rfl]
  rw [simplifyPolygon_short _ _ (by norm_num), simplifyPolygon_short _ _ (by norm_num)]
  rfl

theorem rectangle_simplify_identity_witness :
    (0 : ℚ) ≤ 1 / 2 ∧ (1 / 2 : ℚ) < 1 ∧
      simplifyPolygon rectExample (1 / 2) = rectExample :=
  ⟨by norm_num, by norm_num,
    rectangle_simplify_identity (1 / 2) (by norm_num) (by norm_num)⟩

/-! ### Theorems for the tier-4 numeric extraction (C4) -/

/-- The tier-4 house-number skip condition, in propositional form: an
expected house number is present and the parsed value is within ±2 of
it. -/
def tier4Skips (expected : Option Int) (value : Nat) : Prop :=
  ∃ e, expected = some e ∧ ((value : Int) - e).natAbs ≤ 2

/-- C4: in the whole-number tier of `extractAreaFromRegion` (reached with
an empty candidate list, since the unit and decimal tiers return early
whenever they found anything): (1) an integer within ±2 of
`expectedHouseNumber` is skipped; (2) when not skipped, a match whose text
ends in `'0'` with value in `[1000, 100000]` and value/10 in `[100, 1000]`
contributes value/10, (3) any other match contributes its value iff it
lies in `[100, 10000]`; (4) the returned value is a candidate and is the
largest candidate; and (5) on the text `"1600"` with no expected house
number the result is 160. -/
theorem tier4_extraction (text : List Char) (eo : Option Int) (e : Int)
    (run : List Char) (v : Nat) :
    (((parseNatDigits run : Int) - e).natAbs ≤ 2 →
      tier4Process (some e) run = none) ∧
    (¬ tier4Skips eo (parseNatDigits run) →
      (run.getLast? = some '0' ∧ 1000 ≤ parseNatDigits run ∧
          parseNatDigits run ≤ 100000 ∧ 100 ≤ parseNatDigits run / 10 ∧
          parseNatDigits run / 10 ≤ 1000 →
        tier4Process eo run = some (parseNatDigits run / 10)) ∧
      (¬ (run.getLast? = some '0' ∧ 1000 ≤ parseNatDigits run ∧
          parseNatDigits run ≤ 100000 ∧ 100 ≤ parseNatDigits run / 10 ∧
          parseNatDigits run / 10 ≤ 1000) →
        tier4Process eo run =
          if 100 ≤ parseNatDigits run ∧ parseNatDigits run ≤ 10000 then
            some (parseNatDigits run) else none)) ∧
    (extractAreaTier4 text eo = some v →
      v ∈ tier4Candidates text eo ∧ ∀ u ∈ tier4Candidates text eo, u ≤ v) ∧
    extractAreaTier4 ("1600".toList) none = some 160 := by
  refine ⟨?_, ?_, ?_, ?_⟩
  · intro h
    simp [tier4Process, h]
  · intro hns
    cases eo with
    | none =>
      refine ⟨?_, ?_⟩
      · intro hcond
        simp only [tier4Process]
        rw [if_neg (by simp), if_pos hcond,
          if_pos ⟨hcond.2.2.2.1, le_trans hcond.2.2.2.2 (by norm_num)⟩]
      · intro hcond
        simp only [tier4Process]
        rw [if_neg (by simp), if_neg hcond]
    | some e' =>
      have habs : ¬ ((parseNatDigits run : Int) - e').natAbs ≤ 2 :=
        fun h => hns ⟨e', rfl, h⟩
      refine ⟨?_, ?_⟩
      · intro hcond
        simp only [tier4Process]
        rw [if_neg (by simp [habs]), if_pos hcond,
          if_pos ⟨hcond.2.2.2.1, le_trans hcond.2.2.2.2 (by norm_num)⟩]
      · intro hcond
        simp only [tier4Process]
        rw [if_neg (by simp [habs]), if_neg hcond]
  · intro hv
    unfold extractAreaTier4 at hv
    have hperm := List.mergeSort_perm (tier4Candidates text eo)
      (fun a b => decide (b ≤ a))
    have hsorted : ((tier4Candidates text eo).mergeSort
        (fun a b => decide (b ≤ a))).Pairwise (fun a b => decide (b ≤ a) = true) :=
      List.sorted_mergeSort
        (fun a b c hab hbc => by
          simp only [decide_eq_true_eq] at *
          omega)
        (fun a b => by
          simp only [Bool.or_eq_true, decide_eq_true_eq]
          omega)
        (tier4Candidates text eo)
    rcases hcs : (tier4Candidates text eo).mergeSort (fun a b => decide (b ≤ a)) with
      _ | ⟨x, tl⟩
    · rw [hcs] at hv
      simp at hv
    · rw [hcs] at hv
      simp only [List.head?_cons, Option.some.injEq] at hv
      subst hv
      constructor
      · exact hperm.mem_iff.mp (hcs ▸ List.mem_cons_self _ _)
      · intro u hu
        have hu' : u ∈ x :: tl := hcs ▸ hperm.mem_iff.mpr hu
        rcases List.mem_cons.mp hu' with rfl | hmem
        · exact le_refl _
        · rw [hcs] at hsorted
          have := (List.pairwise_cons.mp hsorted).1 u hmem
          simpa using this
  · have hc : tier4Candidates ("1600".toList) none = [160] := by decide
    unfold extractAreaTier4
    rw [hc, List.mergeSort_singleton]
    rfl

theorem tier4_extraction_witness :
    tier4Process (some 162) ("163".toList) = none ∧
      extractAreaTier4 ("1600".toList) none = some 160 :=
  ⟨(tier4_extraction [] (some 162) 162 ("163".toList) 0).1 (by decide),
    (tier4_extraction [] none 0 [] 0).2.2.2⟩

/-! ### Theorems for the Pixel Sampler (C5) -/

/-- A 4×4 fully transparent raster. -/
def imgTransparent : Raster :=
  ⟨4, 4, fun _ _ => ⟨0, 0, 0, 0⟩⟩

/-- A 4×4 fully opaque raster of one color. -/
def imgOpaque : Raster :=
  ⟨4, 4, fun _ _ => ⟨10, 20, 30, 255⟩⟩

/-- A square polygon covering `[0,2]×[0,2]`. -/
def ptsUnit : List Point :=
  [⟨0, 0⟩, ⟨2, 0⟩, ⟨2, 2⟩, ⟨0, 2⟩]

/-- C5: the sampler returns `none` exactly when the clamped bounding box
has non-positive width or height or no sampled pixel has alpha strictly
above 128; any returned string is the hex encoding of the rounded channel
averages over the qualifying sampled pixels. -/
theorem sample_color_characterization (img : Raster) (points : List Point) :
    (sampleColorFromRegion img points = none ↔
      ((sampleBox img points).maxX - (sampleBox img points).minX ≤ 0 ∨
        (sampleBox img points).maxY - (sampleBox img points).minY ≤ 0 ∨
        qualifyingPixels img points = [])) ∧
    (∀ s, sampleColorFromRegion img points = some s →
      s = colorHex
        (jsRound ((qualifyingPixels img points).map (·.r)).sum
          (qualifyingPixels img points).length)
        (jsRound ((qualifyingPixels img points).map (·.g)).sum
          (qualifyingPixels img points).length)
        (jsRound ((qualifyingPixels img points).map (·.b)).sum
          (qualifyingPixels img points).length)) := by
  constructor
  · simp only [sampleColorFromRegion]
    by_cases h1 : (sampleBox img points).maxX - (sampleBox img points).minX ≤ 0 ∨
        (sampleBox img points).maxY - (sampleBox img points).minY ≤ 0
    · rw [if_pos h1]
      exact iff_of_true rfl (by tauto)
    · rw [if_neg h1]
      by_cases h2 : (qualifyingPixels img points).length = 0
      · rw [if_pos h2]
        exact iff_of_true rfl (Or.inr (Or.inr (List.length_eq_zero.mp h2)))
      · rw [if_neg h2]
        apply iff_of_false
        · simp
        · intro hdisj
          rcases hdisj with h | h | h
          · exact h1 (Or.inl h)
          · exact h1 (Or.inr h)
          · exact h2 (by rw [h]; rfl)
  · intro s hs
    simp only [sampleColorFromRegion] at hs
    by_cases h1 : (sampleBox img points).maxX - (sampleBox img points).minX ≤ 0 ∨
        (sampleBox img points).maxY - (sampleBox img points).minY ≤ 0
    · rw [if_pos h1] at hs
      exact absurd hs (by simp)
    · rw [if_neg h1] at hs
      by_cases h2 : (qualifyingPixels img points).length = 0
      · rw [if_pos h2] at hs
        exact absurd hs (by simp)
      · rw [if_neg h2] at hs
        exact (Option.some_injective _ hs).symm

theorem sampleBox_ptsUnit (img : Raster) (h4 : img.width = 4) (h4' : img.height = 4) :
    sampleBox img ptsUnit = ⟨0, 2, 0, 2⟩ := by
  unfold sampleBox ptsUnit qMin qMax
  simp only [List.map_cons, List.map_nil, List.foldl_cons, List.foldl_nil, h4, h4']
  norm_num [min_def, max_def, Box.mk.injEq]

theorem sample_color_characterization_witness :
    sampleColorFromRegion imgTransparent ptsUnit = none ∧
      sampleColorFromRegion imgOpaque ptsUnit = some "#0a141e" := by
  have hbT : sampleBox imgTransparent ptsUnit = ⟨0, 2, 0, 2⟩ :=
    sampleBox_ptsUnit imgTransparent rfl rfl
  have hbO : sampleBox imgOpaque ptsUnit = ⟨0, 2, 0, 2⟩ :=
    sampleBox_ptsUnit imgOpaque rfl rfl
  have hqT : qualifyingPixels imgTransparent ptsUnit = [] := by
    simp only [qualifyingPixels, sampledPixels, hbT]
    decide
  have hqO : qualifyingPixels imgOpaque ptsUnit = [⟨10, 20, 30, 255⟩] := by
    simp only [qualifyingPixels, sampledPixels, hbO]
    decide
  constructor
  · exact (sample_color_characterization imgTransparent ptsUnit).1.mpr
      (Or.inr (Or.inr hqT))
  · unfold sampleColorFromRegion
    rw [hbO]
    norm_num [hqO, jsRound]
    decide

/-! ### Theorems for the flood-fill cap and small-region failure (C7) -/

theorem floodLoopFuel_inv (img : Raster) (tol edgeT : Nat) (seed : RGBA)
    (fuel : Nat) :
    ∀ (st : FloodState), st.region.length = st.pixelCount →
      st.pixelCount ≤ maxPixels →
      ((floodLoopFuel img tol edgeT seed fuel st).region.length =
          (floodLoopFuel img tol edgeT seed fuel st).pixelCount ∧
        (floodLoopFuel img tol edgeT seed fuel st).pixelCount ≤ maxPixels) := by
  induction fuel with
  | zero => intro st h1 h2; exact ⟨h1, h2⟩
  | succ fuel ih =>
    intro st h1 h2
    match hq : st.queue with
    | [] => simpa [floodLoopFuel, hq] using ⟨h1, h2⟩
    | p :: rest =>
      simp only [floodLoopFuel, hq]
      by_cases hc : st.pixelCount < maxPixels
      · simp only [hc, if_true, dif_pos]
        by_cases hv : st.visited.contains p
        · simp only [hv, if_true]
          exact ih _ h1 h2
        · simp only [hv, Bool.false_eq_true, if_false]
          by_cases hb : p.1 < 0 ∨ (img.width : Int) ≤ p.1 ∨ p.2 < 0 ∨ (img.height : Int) ≤ p.2
          · simp only [hb, if_true]
            exact ih _ h1 h2
          · simp only [hb, if_false]
            by_cases he : edgeT * edgeT < edgeStrengthSq img p.1 p.2
            · simp only [he, if_true]
              exact ih _ h1 h2
            · simp only [he, if_false]
              by_cases hcm : ¬ colorDiff (img.pix p.1 p.2) seed ≤ tol
              · simp only [hcm, if_true]
                exact ih _ h1 h2
              · simp only [hcm, if_false]
                apply ih
                · simp only [List.length_append, List.length_cons, List.length_nil]
                  omega
                · show st.pixelCount + 1 ≤ maxPixels
                  omega
      · simp only [hc, if_false, dif_neg]
        exact ⟨h1, h2⟩

theorem floodLoop_inv (img : Raster) (tol edgeT : Nat) (seed : RGBA)
    (st : FloodState) (h1 : st.region.length = st.pixelCount)
    (h2 : st.pixelCount ≤ maxPixels) :
    (floodLoop img tol edgeT seed st).region.length =
        (floodLoop img tol edgeT seed st).pixelCount ∧
      (floodLoop img tol edgeT seed st).pixelCount ≤ maxPixels := by
  have h := floodLoopFuel_inv img tol edgeT seed
    (st.queue.length + 5 * (maxPixels - st.pixelCount) + 1) st h1 h2
  rwa [floodLoopFuel_eq img tol edgeT seed _ st (by omega)] at h

/-- C7: the flood fill accepts at most `maxPixels = 500000` pixels into the
region (each acceptance is guarded by `pixelCount < maxPixels` and counted),
and whenever the resulting region holds fewer than 100 pixels
`magicWandSelect` returns `none` — no polygon and no rectangle fallback. -/
theorem magic_wand_flood_cap (img : Raster) (clickPoint : Point) (tol edgeT : Nat) :
    maxPixels = 500000 ∧
    (floodFill img tol edgeT (roundQ clickPoint.x) (roundQ clickPoint.y)).region.length ≤
      maxPixels ∧
    ((floodFill img tol edgeT (roundQ clickPoint.x) (roundQ clickPoint.y)).region.length < 100 →
      magicWandSelect img clickPoint tol edgeT = none) := by
  have hinv := floodLoop_inv img tol edgeT
    (img.pix (roundQ clickPoint.x) (roundQ clickPoint.y))
    ⟨[], [], [(roundQ clickPoint.x, roundQ clickPoint.y)], 0⟩ rfl
    (by norm_num [maxPixels])
  refine ⟨rfl, ?_, ?_⟩
  · exact le_of_eq_of_le hinv.1 hinv.2
  · intro hsmall
    simp only [magicWandSelect]
    by_cases hb : roundQ clickPoint.x < 0 ∨ (img.width : Int) ≤ roundQ clickPoint.x ∨
        roundQ clickPoint.y < 0 ∨ (img.height : Int) ≤ roundQ clickPoint.y
    · rw [if_pos hb]
    · rw [if_neg hb, if_pos hsmall]

/-- A 3×3 uniform raster: every interior neighbor of the center is a border
pixel, so the flood fill from the center accepts a single pixel. -/
def img3 : Raster :=
  ⟨3, 3, fun _ _ => ⟨200, 200, 200, 255⟩⟩

theorem magic_wand_flood_cap_witness :
    (floodFill img3 30 50 (roundQ (1 : ℚ)) (roundQ (1 : ℚ))).region.length < 100 ∧
      magicWandSelect img3 ⟨1, 1⟩ 30 50 = none := by
  have hr : roundQ (1 : ℚ) = 1 := by
    norm_num [roundQ]
  have hsmall : (floodFill img3 30 50 (roundQ (1 : ℚ))
      (roundQ (1 : ℚ))).region.length < 100 := by
    rw [hr]
    unfold floodFill
    rw [← floodLoopFuel_eq img3 30 50 (img3.pix 1 1) 2500002 ⟨[], [], [(1, 1)], 0⟩
      (by norm_num [maxPixels])]
    decide
  exact ⟨hsmall, (magic_wand_flood_cap img3 ⟨1, 1⟩ 30 50).2.2 hsmall⟩

end MapLabelEditor
